import Mathlib

/-!
# go-hotfix: the ApplyFunc pipeline of `hotfix.go`

A shallow embedding of `ApplyFunc`, `applyPatch`, `loadPatch` and `monkeyFunc`.

The three libraries the file calls are not part of the repository:

* the yaegi interpreter (`interp.New`, `Use`, `EvalPath`, `Eval`) is an arbitrary
  oracle `Interp σ` over an interpreter state `σ`;
* the part of `reflect` that is used (`Value.Interface`, `Type.MethodByName`) is
  modelled on the values the pipeline can tell apart;
* the gomonkey redirector (`NewPatches`, `ApplyCore`) is an arbitrary `Redirector`
  acting on code memory; `specRedirector` is the redirector the specification
  describes in its section 4.4.

Every call can return normally or panic (`Outcome`).  The pipeline threads the
code memory and records the calls it performs, in order.
-/

namespace Hotfix

/-! ## Go values -/

/-- A panic value as `recover()` hands it to the deferred function of `applyPatch`,
identified by its rendering under the `%v` verb.  It is never nil: the module
imports `log/slog` and therefore builds with Go 1.21 or later, where `panic(nil)`
raises a `*runtime.PanicNilError`. -/
structure PanicValue where
  text : String
deriving DecidableEq, Repr

/-- Result of a Go call: normal return with a value, or a panic in flight. -/
inductive Outcome (α : Type) where
  | ret (a : α)
  | panic (r : PanicValue)
deriving DecidableEq, Repr

/-- A Go function type: parameter types (the receiver first for a method taken
from a method table), result types, variadic flag. -/
structure FuncType where
  ins : List String
  outs : List String
  variadic : Bool
deriving DecidableEq, Repr

/-- A `reflect.Value` as the method resolver and the redirector see it: the zero
Value, a function (its type and the address of its code entry), or a value of
another kind. -/
inductive ReflectValue where
  | zero
  | func (typ : FuncType) (entry : Nat)
  | nonFunc (kind : String)
deriving DecidableEq, Repr

/-- A `reflect.Method`: the fields `Name` and `Func`. -/
structure Method where
  Name : String
  Func : ReflectValue
deriving DecidableEq, Repr

/-- A non-nil `reflect.Type`: its name and the method table that `MethodByName`
searches. -/
structure RType where
  name : String
  methods : List Method
deriving DecidableEq, Repr

/-- Lookup `Type.MethodByName`: the method of that name and `true`, or `false`. -/
def RType.MethodByName (t : RType) (methodName : String) : Option Method :=
  t.methods.find? (fun m => m.Name == methodName)

/-- The struct `FuncPatch` of hotfix.go.  `StructType` is an interface value and
may be nil (`none`). -/
structure FuncPatch where
  StructType : Option RType
  FuncName : String
  FuncValue : ReflectValue
deriving DecidableEq, Repr

/-- The dynamic content of the `interface{}` that `res.Interface()` returns, as
far as the type assertion `.(*FuncPatch)` distinguishes it. -/
inductive Dynamic where
  | nilInterface
  | ptrFuncPatch (p : Option FuncPatch)
  | valFuncPatch (v : FuncPatch)
  | other (typeName : String)
deriving DecidableEq, Repr

/-- The `reflect.Value` returned by the interpreter: the zero Value
(`reflect.Value{}`), a valid Value holding a dynamic content, or a valid Value
that is read-only because it was obtained from an unexported field or method. -/
inductive EvalValue where
  | zero
  | of (d : Dynamic)
  | readOnly (d : Dynamic)
deriving DecidableEq, Repr

/-- Panic raised by `reflect.Value.Interface` on the zero Value. -/
def zeroValueInterface : PanicValue :=
  ⟨"reflect: call of reflect.Value.Interface on zero Value"⟩

/-- Panic raised by the Go runtime on a nil pointer or nil interface dereference. -/
def nilDereference : PanicValue :=
  ⟨"runtime error: invalid memory address or nil pointer dereference"⟩

/-- Panic raised by `reflect.Value.Interface` on a read-only Value. -/
def readOnlyInterface : PanicValue :=
  ⟨"reflect.Value.Interface: cannot return value obtained from unexported field or method"⟩

/-- The method `reflect.Value.Interface`: it panics on the zero Value and on a
read-only Value, and returns the content of any other Value. -/
def EvalValue.Interface : EvalValue → Outcome Dynamic
  | .zero => .panic zeroValueInterface
  | .of d => .ret d
  | .readOnly _ => .panic readOnlyInterface

/-- The comma-ok type assertion `x.(*FuncPatch)`: `none` when `ok` is false,
otherwise the pointer, which may itself be nil. -/
def Dynamic.assertPtrFuncPatch : Dynamic → Option (Option FuncPatch)
  | .ptrFuncPatch p => some p
  | _ => none

/-! ## Errors -/

/-- An error value returned by the interpreter library. -/
structure ExtError where
  msg : String
deriving DecidableEq, Repr

/-- The error values `ApplyFunc` can return: the two package sentinels, an error
of the interpreter passed through, or an error built by `fmt.Errorf` in the
deferred function. -/
inductive GoError where
  | convertFuncPatchErr
  | retrieveMethodNameErr
  | external (e : ExtError)
  | errorf (msg : String)
deriving DecidableEq, Repr

/-! ## The interpreter -/

/-- A value of type `interp.Exports`: one of the five library tables registered by
`loadPatch`, or a table built by the caller. -/
inductive Exports where
  | stdlibSymbols
  | unsafeSymbols
  | syscallSymbols
  | unrestrictedSymbols
  | interpSymbols
  | table (pkgs : List (String × List String))
deriving DecidableEq, Repr

/-- The interpreter functions used by `loadPatch`.  `New` is the call of
`interp.New` on empty options, which returns the state of a new interpreter;
`EvalPath` returns a value that `loadPatch` discards, so only its error is kept. -/
structure Interp (σ : Type) where
  New : Outcome σ
  Use : σ → Exports → Outcome (σ × Option ExtError)
  EvalPath : σ → String → Outcome (σ × Option ExtError)
  Eval : σ → String → Outcome (EvalValue × Option ExtError)

/-! ## Code memory and the redirector -/

/-- Executable memory: the byte at each address. -/
abbrev Mem := Nat → Nat

/-- The `n` bytes starting at address `a`. -/
def readBytes (mem : Mem) (a n : Nat) : List Nat :=
  (List.range n).map (fun i => mem (a + i))

/-- Memory after the bytes `bs` are written at address `a`. -/
def writeBytes (mem : Mem) (a : Nat) (bs : List Nat) : Mem :=
  fun x => if a ≤ x ∧ x < a + bs.length then bs.getD (x - a) 0 else mem x

/-- One redirection kept in a patch handle: the patched entry, the bytes captured
there before the write, and the replacement it now transfers to. -/
structure PatchRecord where
  originalEntry : Nat
  saved : List Nat
  target : Nat
deriving DecidableEq, Repr

/-- A non-nil `*gomonkey.Patches`, the active patch handle. -/
structure Patches where
  records : List PatchRecord
deriving DecidableEq, Repr

/-- The two redirector operations used by `monkeyFunc`.  `ApplyCore` has a single
result, the handle: it has no error result and can only fail by panicking.  The
memory it leaves is returned in both cases. -/
structure Redirector where
  NewPatches : Patches
  ApplyCore : Mem → Patches → ReflectValue → ReflectValue → Outcome Patches × Mem

/-! ## The pipeline -/

/-- A call made by the pipeline to one of the libraries. -/
inductive Call where
  | interpNew
  | use (symbols : Exports)
  | evalPath (path : String)
  | eval (src : String)
  | valueInterface
  | methodByName (source : RType) (methodName : String)
  | newPatches
  | applyCore (target double : ReflectValue)
deriving DecidableEq, Repr

/-- The struct `patch` of hotfix.go. -/
structure patch where
  filePath : String
  evalText : String
  symbols : Exports
deriving DecidableEq, Repr

/-- A run of the interpreter stage: its outcome and the calls made, in order. -/
structure Run (α : Type) where
  out : Outcome α
  calls : List Call

/-- The `for` loop of `loadPatch` over a list of symbol tables: `Use` is called on
each in turn and the loop is left at the first error (or panic).  On success the
interpreter state after the last registration is returned with a nil error. -/
def useEach {σ : Type} (I : Interp σ) : σ → List Exports → Run (σ × Option ExtError)
  | s, [] => ⟨.ret (s, none), []⟩
  | s, x :: xs =>
    match I.Use s x with
    | .panic r => ⟨.panic r, [.use x]⟩
    | .ret (s', some e) => ⟨.ret (s', some e), [.use x]⟩
    | .ret (s', none) =>
      let r := useEach I s' xs
      ⟨r.out, .use x :: r.calls⟩

/-- The five library tables, in the order of the slice literal in `loadPatch`. -/
def librarySymbols : List Exports :=
  [.stdlibSymbols, .unsafeSymbols, .syscallSymbols, .unrestrictedSymbols, .interpSymbols]

/-- The method `loadPatch` of hotfix.go. -/
def loadPatch {σ : Type} (I : Interp σ) (p : patch) : Run (EvalValue × Option ExtError) :=
  match I.New with
  | .panic q => ⟨.panic q, [.interpNew]⟩
  | .ret interpreter =>
    let r := useEach I interpreter librarySymbols
    match r.out with
    | .panic q => ⟨.panic q, .interpNew :: r.calls⟩
    | .ret (_, some e) => ⟨.ret (.zero, some e), .interpNew :: r.calls⟩
    | .ret (s, none) =>
      match I.Use s p.symbols with
      | .panic q => ⟨.panic q, .interpNew :: r.calls ++ [.use p.symbols]⟩
      | .ret (_, some e) => ⟨.ret (.zero, some e), .interpNew :: r.calls ++ [.use p.symbols]⟩
      | .ret (s1, none) =>
        match I.EvalPath s1 p.filePath with
        | .panic q =>
          ⟨.panic q, .interpNew :: r.calls ++ [.use p.symbols, .evalPath p.filePath]⟩
        | .ret (_, some e) =>
          ⟨.ret (.zero, some e),
            .interpNew :: r.calls ++ [.use p.symbols, .evalPath p.filePath]⟩
        | .ret (s2, none) =>
          ⟨I.Eval s2 p.evalText,
            .interpNew :: r.calls ++ [.use p.symbols, .evalPath p.filePath, .eval p.evalText]⟩

/-- The state in which a function of the pipeline stops: its outcome, the code
memory and the calls made, in order. -/
structure Stop (α : Type) where
  out : Outcome α
  mem : Mem
  calls : List Call

/-- The method `monkeyFunc` of hotfix.go.  `source` is an interface value: calling
`MethodByName` on nil panics. -/
def monkeyFunc (R : Redirector) (mem : Mem) (source : Option RType) (methodName : String)
    (dest : ReflectValue) : Stop (Option Patches × Option GoError) :=
  match source with
  | none => ⟨.panic nilDereference, mem, []⟩
  | some t =>
    match t.MethodByName methodName with
    | none => ⟨.ret (none, some .retrieveMethodNameErr), mem, [.methodByName t methodName]⟩
    | some m =>
      let patches := R.NewPatches
      match R.ApplyCore mem patches m.Func dest with
      | (.panic q, mem') =>
        ⟨.panic q, mem', [.methodByName t methodName, .newPatches, .applyCore m.Func dest]⟩
      | (.ret h, mem') =>
        ⟨.ret (some h, none), mem',
          [.methodByName t methodName, .newPatches, .applyCore m.Func dest]⟩

/-- The named results `(patches, err)` of `applyPatch`. -/
structure Named where
  patches : Option Patches
  err : Option GoError
deriving DecidableEq, Repr

/-- The point where the body of `applyPatch` ends: the named results as last
assigned, the panic that ended it (if it did not reach a `return`), the code
memory and the calls made. -/
structure BodyEnd where
  named : Named
  raised : Option PanicValue
  mem : Mem
  calls : List Call

/-- What the environment of one `ApplyFunc` call provides: the interpreter, the
redirector, and the snapshot `debug.Stack()` returns in the deferred function. -/
structure Env (σ : Type) where
  interp : Interp σ
  redirector : Redirector
  debugStack : String

/-- The body of `applyPatch` (lines 50 to 60), without the deferred function. -/
def applyPatchBody {σ : Type} (E : Env σ) (p : patch) (mem : Mem) : BodyEnd :=
  let l := loadPatch E.interp p
  match l.out with
  | .panic q => ⟨⟨none, none⟩, some q, mem, l.calls⟩
  | .ret (_, some e) => ⟨⟨none, some (.external e)⟩, none, mem, l.calls⟩
  | .ret (res, none) =>
    match res.Interface with
    | .panic q => ⟨⟨none, none⟩, some q, mem, l.calls ++ [.valueInterface]⟩
    | .ret x =>
      match x.assertPtrFuncPatch with
      | none => ⟨⟨none, some .convertFuncPatchErr⟩, none, mem, l.calls ++ [.valueInterface]⟩
      | some none => ⟨⟨none, none⟩, some nilDereference, mem, l.calls ++ [.valueInterface]⟩
      | some (some fp) =>
        let m := monkeyFunc E.redirector mem fp.StructType fp.FuncName fp.FuncValue
        match m.out with
        | .panic q => ⟨⟨none, none⟩, some q, m.mem, l.calls ++ .valueInterface :: m.calls⟩
        | .ret (h, e) => ⟨⟨h, e⟩, none, m.mem, l.calls ++ .valueInterface :: m.calls⟩

/-- The message built by `fmt.Errorf("%v \n %s", r, string(debug.Stack()))`. -/
def recoveredMessage (r : PanicValue) (stack : String) : String :=
  r.text ++ " \n " ++ stack

/-- The method `applyPatch` of hotfix.go: the body, then the deferred function,
which recovers a panic in flight and overwrites the named result `err`. -/
def applyPatch {σ : Type} (E : Env σ) (p : patch) (mem : Mem) :
    Stop (Option Patches × Option GoError) :=
  let b := applyPatchBody E p mem
  match b.raised with
  | some r =>
    ⟨.ret (b.named.patches, some (.errorf (recoveredMessage r E.debugStack))), b.mem, b.calls⟩
  | none => ⟨.ret (b.named.patches, b.named.err), b.mem, b.calls⟩

/-- The function `ApplyFunc` of hotfix.go. -/
def ApplyFunc {σ : Type} (E : Env σ) (mem : Mem) (filePath evalText : String)
    (symbols : Exports) : Stop (Option Patches × Option GoError) :=
  applyPatch E ⟨filePath, evalText, symbols⟩ mem

/-- Whether a call is made to the interpreter. -/
def Call.isInterp : Call → Bool
  | .interpNew => true
  | .use _ => true
  | .evalPath _ => true
  | .eval _ => true
  | _ => false

/-- Whether a call is made to the redirector. -/
def Call.isRedirector : Call → Bool
  | .newPatches => true
  | .applyCore _ _ => true
  | _ => false

/-- Whether a call is the method lookup. -/
def Call.isLookup : Call → Bool
  | .methodByName _ _ => true
  | _ => false

/-- The interpreter state after `Use` has registered every table of the list with
a nil error, `none` if one of the registrations failed or panicked. -/
def afterUses {σ : Type} (I : Interp σ) : σ → List Exports → Option σ
  | s, [] => some s
  | s, x :: xs =>
    match I.Use s x with
    | .ret (s', none) => afterUses I s' xs
    | _ => none

/-- The tables `loadPatch` registers for a request, in order: the five library
tables, then the table of the caller. -/
def registrationOrder (p : patch) : List Exports :=
  librarySymbols ++ [p.symbols]

/-- The calls of a complete run of the interpreter stage for a request: the
construction, the six registrations, the load of the file, the evaluation. -/
def interpreterPlan (p : patch) : List Call :=
  .interpNew :: (registrationOrder p).map Call.use ++ [.evalPath p.filePath, .eval p.evalText]

/-! ## The redirector of the specification -/

/-- Modelled from the spec: the failure `SignatureMismatchError` of Install
(section 4.4).  The repository does not contain the redirector library; as
`ApplyCore` has no error result, the failure reaches `monkeyFunc` as a panic with
this value. -/
def signatureMismatch : PanicValue :=
  ⟨"SignatureMismatchError"⟩

/-- Modelled from the spec: Install of the Code Redirector (section 4.4), which
stands behind `ApplyCore` of the redirector library, missing from the repository.
The signatures of the original entry and of the replacement must match exactly,
otherwise it fails without touching any code.  When they match it captures the
entry bytes of the original (as many as the jump instruction `jmp` to the
replacement takes), overwrites the entry with that jump and records the captured
bytes in the handle.  Page protection is not part of `Mem`: the two protection
changes around the write leave no trace in it. -/
def specApplyCore (jmp : Nat → List Nat) (mem : Mem) (h : Patches)
    (target double : ReflectValue) : Outcome Patches × Mem :=
  match target, double with
  | .func tt te, .func dt de =>
    if tt = dt then
      let code := jmp de
      let original := readBytes mem te code.length
      (.ret ⟨h.records ++ [⟨te, original, de⟩]⟩, writeBytes mem te code)
    else (.panic signatureMismatch, mem)
  | _, _ => (.panic signatureMismatch, mem)

/-- Modelled from the spec: the Code Redirector of section 4.4 (the redirector
library is missing from the repository), for a platform whose jump to an address
`a` is encoded as `jmp a`.  A new handle holds no redirection. -/
def specRedirector (jmp : Nat → List Nat) : Redirector :=
  ⟨⟨[]⟩, specApplyCore jmp⟩

/-- Modelled from the spec: Restore of the Code Redirector (section 4.4 and the
Active Patch Handle of section 3), missing from the repository: the bytes recorded
in the handle are written back at the entry they were captured from. -/
def restore (mem : Mem) (h : Patches) : Mem :=
  h.records.foldl (fun m r => writeBytes m r.originalEntry r.saved) mem

/-- Modelled from the spec: the error taxonomy of section 7, with the four errors
of the interpreter taken together. -/
inductive ErrorClass where
  | interpreterError
  | invalidDescriptor
  | methodNotFound
  | signatureMismatch
  | redirectionError
  | panicRecovered
deriving DecidableEq, Repr

/-- Modelled from the spec: the class of section 7 an error value returned by
`ApplyFunc` belongs to.  The sentinels are the errors of the extractor and of the
resolver, an error passed through comes from the interpreter, and an error built
by `fmt.Errorf` comes from the recovery boundary and carries the stack snapshot. -/
def GoError.errorClass : GoError → ErrorClass
  | .convertFuncPatchErr => .invalidDescriptor
  | .retrieveMethodNameErr => .methodNotFound
  | .external _ => .interpreterError
  | .errorf _ => .panicRecovered

/-! ## A concrete host: the example service -/

/-- The type of the handler methods of `HttpSvc`, receiver first. -/
def handlerFunc : FuncType :=
  ⟨["*handler.HttpSvc", "http.ResponseWriter", "*http.Request"], [], false⟩

/-- The type `*handler.HttpSvc` of the example with the two methods the patches
of example/patch name, `Hello` entered at address 64 and `Index` at address 128. -/
def httpSvc : RType :=
  ⟨"*handler.HttpSvc", [⟨"Hello", .func handlerFunc 64⟩, ⟨"Index", .func handlerFunc 128⟩]⟩

/-- The descriptor returned by `PatchTestHandler` of example/patch/patch_http.go,
its closure placed at address 512. -/
def patchTestHandler : FuncPatch :=
  ⟨some httpSvc, "Index", .func handlerFunc 512⟩

/-- The descriptor returned by `PatchRecoveryHandler` of
example/patch/patch_recovery.go, its closure placed at address 640. -/
def patchRecoveryHandler : FuncPatch :=
  ⟨some httpSvc, "Index", .func handlerFunc 640⟩

/-- A descriptor whose replacement lacks the receiver parameter. -/
def patchWrongSignature : FuncPatch :=
  ⟨some httpSvc, "Index", .func ⟨["http.ResponseWriter", "*http.Request"], [], false⟩ 512⟩

/-- A scripted interpreter: `Use` rejects the table `badTable`, `EvalPath` returns
`loadError`, `Eval` ends with `result`.  Its state is the list of tables
registered so far. -/
structure Script where
  badTable : Option Exports
  loadError : Option ExtError
  result : Outcome (EvalValue × Option ExtError)

/-- The interpreter playing a script. -/
def Script.interp (s : Script) : Interp (List Exports) :=
  ⟨.ret [],
   fun st x => if some x = s.badTable then .ret (st, some ⟨"malformed symbol table"⟩)
               else .ret (st ++ [x], none),
   fun st _ => .ret (st, s.loadError),
   fun _ _ => s.result⟩

/-- A script whose trailing expression evaluates to the value `v`. -/
def scriptYielding (v : EvalValue) : Script :=
  ⟨none, none, .ret (v, none)⟩

/-- A jump to the address `a`, three bytes long: an opcode and the address in two
bytes, low byte first. -/
def jmp3 (a : Nat) : List Nat :=
  [233, a % 256, a / 256 % 256]

/-- Pristine code memory: the byte at address `a` is `a % 7`. -/
def pristine : Mem :=
  fun a => a % 7

/-- The example host: a scripted interpreter, the redirector of the specification
with three-byte jumps, and a fixed stack snapshot. -/
def hostEnv (s : Script) : Env (List Exports) :=
  ⟨s.interp, specRedirector jmp3, "goroutine 1 [running]"⟩

/-- The symbol table of example/symbols/symbols.go, which is empty. -/
def exampleSymbols : Exports :=
  .table []

/-- The example host after the request `PatchTestHandler` has been applied to
pristine memory. -/
def appliedOnce : Stop (Option Patches × Option GoError) :=
  ApplyFunc (hostEnv (scriptYielding (.of (.ptrFuncPatch (some patchTestHandler))))) pristine
    "patch/patch_http.go" "patch.PatchTestHandler()" exampleSymbols

/-- The example host after the same request has been applied a second time. -/
def appliedTwice : Stop (Option Patches × Option GoError) :=
  ApplyFunc (hostEnv (scriptYielding (.of (.ptrFuncPatch (some patchTestHandler)))))
    appliedOnce.mem "patch/patch_http.go" "patch.PatchTestHandler()" exampleSymbols

end Hotfix

namespace Hotfix

/-! ## The interpreter stage -/

theorem useEach_cons {σ : Type} (I : Interp σ) (x : Exports) (xs : List Exports) (s : σ) :
    useEach I s (x :: xs) =
      match I.Use s x with
      | .panic r => ⟨.panic r, [.use x]⟩
      | .ret (s1, some e) => ⟨.ret (s1, some e), [.use x]⟩
      | .ret (s1, none) => ⟨(useEach I s1 xs).out, .use x :: (useEach I s1 xs).calls⟩ := by
  rw [useEach]

theorem useEach_append {σ : Type} (I : Interp σ) (xs ys : List Exports) (s : σ) :
    useEach I s (xs ++ ys) =
      match (useEach I s xs).out with
      | .ret (s1, none) =>
        ⟨(useEach I s1 ys).out, (useEach I s xs).calls ++ (useEach I s1 ys).calls⟩
      | _ => useEach I s xs := by
  induction xs generalizing s with
  | nil => simp [useEach]
  | cons x xs ih =>
    rw [List.cons_append, useEach_cons, useEach_cons]
    cases hu : I.Use s x with
    | panic r => simp
    | ret a =>
      obtain ⟨s1, e⟩ := a
      cases e with
      | some e => simp
      | none =>
        dsimp only
        rw [ih s1]
        cases hr : (useEach I s1 xs).out with
        | panic r => simp [hr]
        | ret b =>
          obtain ⟨s2, e2⟩ := b
          cases e2 <;> simp [hr]

theorem useEach_singleton {σ : Type} (I : Interp σ) (y : Exports) (s : σ) :
    useEach I s [y] =
      match I.Use s y with
      | .panic r => ⟨.panic r, [.use y]⟩
      | .ret (s1, e) => ⟨.ret (s1, e), [.use y]⟩ := by
  simp only [useEach]
  cases I.Use s y with
  | panic r => rfl
  | ret a =>
    obtain ⟨s1, e⟩ := a
    cases e <;> rfl

theorem useEach_of_afterUses {σ : Type} (I : Interp σ) (xs : List Exports) (s s1 : σ)
    (h : afterUses I s xs = some s1) :
    useEach I s xs = ⟨.ret (s1, none), xs.map Call.use⟩ := by
  induction xs generalizing s with
  | nil => simp [afterUses] at h; simp [useEach, h]
  | cons x xs ih =>
    unfold afterUses at h
    unfold useEach
    cases hu : I.Use s x with
    | panic r => simp [hu] at h
    | ret a =>
      obtain ⟨s2, e⟩ := a
      cases e with
      | some e => simp [hu] at h
      | none =>
        simp only [hu] at h
        simp [ih s2 h]

theorem useEach_stop {σ : Type} (I : Interp σ) (pre post : List Exports) (x : Exports)
    (s s1 s2 : σ) (e : ExtError) (h : afterUses I s pre = some s1)
    (hx : I.Use s1 x = .ret (s2, some e)) :
    useEach I s (pre ++ x :: post) = ⟨.ret (s2, some e), (pre ++ [x]).map Call.use⟩ := by
  rw [useEach_append, useEach_of_afterUses I pre s s1 h]
  simp [useEach, hx]

theorem useEach_calls_use {σ : Type} (I : Interp σ) (xs : List Exports) (s : σ) :
    ∃ rest, (useEach I s xs).calls ++ rest = xs.map Call.use := by
  induction xs generalizing s with
  | nil => exact ⟨[], by simp [useEach]⟩
  | cons x xs ih =>
    rw [useEach_cons]
    cases hu : I.Use s x with
    | panic r => exact ⟨xs.map Call.use, by simp⟩
    | ret a =>
      obtain ⟨s1, e⟩ := a
      cases e with
      | some e => exact ⟨xs.map Call.use, by simp⟩
      | none =>
        obtain ⟨rest, hrest⟩ := ih s1
        exact ⟨rest, by simp [hrest]⟩

theorem afterUses_of_useEach {σ : Type} (I : Interp σ) (xs : List Exports) (s s1 : σ)
    (h : (useEach I s xs).out = .ret (s1, none)) : afterUses I s xs = some s1 := by
  induction xs generalizing s with
  | nil => simp [useEach] at h; simp [afterUses, h]
  | cons x xs ih =>
    rw [useEach_cons] at h
    unfold afterUses
    cases hu : I.Use s x with
    | panic r => simp [hu] at h
    | ret a =>
      obtain ⟨s2, e⟩ := a
      cases e with
      | some e => simp [hu] at h
      | none =>
        simp only [hu] at h
        exact ih s2 h

theorem loadPatch_of_new_panic {σ : Type} (I : Interp σ) (p : patch) (q : PanicValue)
    (h0 : I.New = .panic q) : loadPatch I p = ⟨.panic q, [.interpNew]⟩ := by
  simp [loadPatch, h0]

/-- The body of `loadPatch` after the construction, read as one loop over the six
tables of `registrationOrder`, followed by the load of the file and the
evaluation. -/
theorem loadPatch_eq {σ : Type} (I : Interp σ) (p : patch) (s0 : σ) (h0 : I.New = .ret s0) :
    loadPatch I p =
      match (useEach I s0 (registrationOrder p)).out with
      | .panic q => ⟨.panic q, .interpNew :: (useEach I s0 (registrationOrder p)).calls⟩
      | .ret (_, some e) =>
        ⟨.ret (.zero, some e), .interpNew :: (useEach I s0 (registrationOrder p)).calls⟩
      | .ret (s1, none) =>
        match I.EvalPath s1 p.filePath with
        | .panic q =>
          ⟨.panic q, .interpNew :: (useEach I s0 (registrationOrder p)).calls
            ++ [.evalPath p.filePath]⟩
        | .ret (_, some e) =>
          ⟨.ret (.zero, some e), .interpNew :: (useEach I s0 (registrationOrder p)).calls
            ++ [.evalPath p.filePath]⟩
        | .ret (s2, none) =>
          ⟨I.Eval s2 p.evalText, .interpNew :: (useEach I s0 (registrationOrder p)).calls
            ++ [.evalPath p.filePath, .eval p.evalText]⟩ := by
  unfold loadPatch registrationOrder
  rw [useEach_append]
  simp only [h0]
  generalize useEach I s0 librarySymbols = r
  obtain ⟨ro, rc⟩ := r
  cases ro with
  | panic q => simp
  | ret a =>
    obtain ⟨s, e⟩ := a
    cases e with
    | some e => simp
    | none =>
      simp only [useEach_singleton]
      cases hu : I.Use s p.symbols with
      | panic q => simp
      | ret b =>
        obtain ⟨s1, e1⟩ := b
        cases e1 with
        | some e1 => simp
        | none =>
          simp only []
          cases I.EvalPath s1 p.filePath with
          | panic q => simp
          | ret c =>
            obtain ⟨s2, e2⟩ := c
            cases e2 <;> simp

/-- Whatever the interpreter does, the calls of `loadPatch` are an initial segment
of the plan. -/
theorem loadPatch_calls_plan {σ : Type} (I : Interp σ) (p : patch) :
    ∃ rest, (loadPatch I p).calls ++ rest = interpreterPlan p := by
  unfold interpreterPlan
  cases h0 : I.New with
  | panic q =>
    rw [loadPatch_of_new_panic I p q h0]
    exact ⟨_, rfl⟩
  | ret s0 =>
    rw [loadPatch_eq I p s0 h0]
    obtain ⟨rest, hrest⟩ := useEach_calls_use I (registrationOrder p) s0
    cases hr : (useEach I s0 (registrationOrder p)).out with
    | panic q =>
      exact ⟨rest ++ [.evalPath p.filePath, .eval p.evalText], by simp [← hrest]⟩
    | ret a =>
      obtain ⟨s1, e⟩ := a
      cases e with
      | some e =>
        exact ⟨rest ++ [.evalPath p.filePath, .eval p.evalText], by simp [← hrest]⟩
      | none =>
        have hall := useEach_of_afterUses I _ s0 s1 (afterUses_of_useEach I _ s0 s1 hr)
        simp only [hall]
        cases I.EvalPath s1 p.filePath with
        | panic q => exact ⟨[.eval p.evalText], by simp⟩
        | ret c =>
          obtain ⟨s2, e2⟩ := c
          cases e2 with
          | some e2 => exact ⟨[.eval p.evalText], by simp⟩
          | none => exact ⟨[], by simp⟩

theorem loadPatch_calls_isInterp {σ : Type} (I : Interp σ) (p : patch) :
    ∀ c ∈ (loadPatch I p).calls, c.isInterp = true := by
  intro c hc
  obtain ⟨rest, hrest⟩ := loadPatch_calls_plan I p
  have hmem : c ∈ interpreterPlan p := by
    rw [← hrest]; exact List.mem_append_left _ hc
  simp only [interpreterPlan, List.mem_cons, List.mem_append, List.mem_map,
    List.mem_singleton, List.not_mem_nil, or_false] at hmem
  rcases hmem with (h | ⟨x, _, h⟩) | h | h
  · subst h; rfl
  · subst h; rfl
  · subst h; rfl
  · subst h; rfl

/-! ## `ApplyFunc`, path by path -/

theorem applyFunc_of_load_panic {σ : Type} (E : Env σ) (mem : Mem)
    (filePath evalText : String) (symbols : Exports) (q : PanicValue)
    (h : (loadPatch E.interp ⟨filePath, evalText, symbols⟩).out = .panic q) :
    ApplyFunc E mem filePath evalText symbols =
      ⟨.ret (none, some (.errorf (recoveredMessage q E.debugStack))), mem,
        (loadPatch E.interp ⟨filePath, evalText, symbols⟩).calls⟩ := by
  simp [ApplyFunc, applyPatch, applyPatchBody, h]

theorem applyFunc_of_load_error {σ : Type} (E : Env σ) (mem : Mem)
    (filePath evalText : String) (symbols : Exports) (v : EvalValue) (e : ExtError)
    (h : (loadPatch E.interp ⟨filePath, evalText, symbols⟩).out = .ret (v, some e)) :
    ApplyFunc E mem filePath evalText symbols =
      ⟨.ret (none, some (.external e)), mem,
        (loadPatch E.interp ⟨filePath, evalText, symbols⟩).calls⟩ := by
  simp [ApplyFunc, applyPatch, applyPatchBody, h]

theorem applyFunc_of_interface_panic {σ : Type} (E : Env σ) (mem : Mem)
    (filePath evalText : String) (symbols : Exports) (v : EvalValue) (q : PanicValue)
    (h : (loadPatch E.interp ⟨filePath, evalText, symbols⟩).out = .ret (v, none))
    (hv : v.Interface = .panic q) :
    ApplyFunc E mem filePath evalText symbols =
      ⟨.ret (none, some (.errorf (recoveredMessage q E.debugStack))), mem,
        (loadPatch E.interp ⟨filePath, evalText, symbols⟩).calls ++ [.valueInterface]⟩ := by
  simp [ApplyFunc, applyPatch, applyPatchBody, h, hv]

theorem applyFunc_of_other {σ : Type} (E : Env σ) (mem : Mem)
    (filePath evalText : String) (symbols : Exports) (d : Dynamic)
    (h : (loadPatch E.interp ⟨filePath, evalText, symbols⟩).out = .ret (.of d, none))
    (hd : d.assertPtrFuncPatch = none) :
    ApplyFunc E mem filePath evalText symbols =
      ⟨.ret (none, some .convertFuncPatchErr), mem,
        (loadPatch E.interp ⟨filePath, evalText, symbols⟩).calls ++ [.valueInterface]⟩ := by
  simp [ApplyFunc, applyPatch, applyPatchBody, h, EvalValue.Interface, hd]

theorem applyFunc_of_nil_pointer {σ : Type} (E : Env σ) (mem : Mem)
    (filePath evalText : String) (symbols : Exports)
    (h : (loadPatch E.interp ⟨filePath, evalText, symbols⟩).out
      = .ret (.of (.ptrFuncPatch none), none)) :
    ApplyFunc E mem filePath evalText symbols =
      ⟨.ret (none, some (.errorf (recoveredMessage nilDereference E.debugStack))), mem,
        (loadPatch E.interp ⟨filePath, evalText, symbols⟩).calls ++ [.valueInterface]⟩ := by
  simp [ApplyFunc, applyPatch, applyPatchBody, h, EvalValue.Interface,
    Dynamic.assertPtrFuncPatch]

theorem applyFunc_of_descriptor {σ : Type} (E : Env σ) (mem : Mem)
    (filePath evalText : String) (symbols : Exports) (fp : FuncPatch)
    (h : (loadPatch E.interp ⟨filePath, evalText, symbols⟩).out
      = .ret (.of (.ptrFuncPatch (some fp)), none)) :
    ApplyFunc E mem filePath evalText symbols =
      match (monkeyFunc E.redirector mem fp.StructType fp.FuncName fp.FuncValue).out with
      | .panic q =>
        ⟨.ret (none, some (.errorf (recoveredMessage q E.debugStack))),
          (monkeyFunc E.redirector mem fp.StructType fp.FuncName fp.FuncValue).mem,
          (loadPatch E.interp ⟨filePath, evalText, symbols⟩).calls ++ .valueInterface ::
            (monkeyFunc E.redirector mem fp.StructType fp.FuncName fp.FuncValue).calls⟩
      | .ret r =>
        ⟨.ret r,
          (monkeyFunc E.redirector mem fp.StructType fp.FuncName fp.FuncValue).mem,
          (loadPatch E.interp ⟨filePath, evalText, symbols⟩).calls ++ .valueInterface ::
            (monkeyFunc E.redirector mem fp.StructType fp.FuncName fp.FuncValue).calls⟩ := by
  simp only [ApplyFunc, applyPatch, applyPatchBody, h, EvalValue.Interface,
    Dynamic.assertPtrFuncPatch]
  cases (monkeyFunc E.redirector mem fp.StructType fp.FuncName fp.FuncValue).out with
  | panic q => rfl
  | ret r => rfl

/-! ## `monkeyFunc`, path by path -/

theorem monkeyFunc_of_nil (R : Redirector) (mem : Mem) (methodName : String)
    (dest : ReflectValue) :
    monkeyFunc R mem none methodName dest = ⟨.panic nilDereference, mem, []⟩ := rfl

theorem monkeyFunc_of_absent (R : Redirector) (mem : Mem) (t : RType) (methodName : String)
    (dest : ReflectValue) (h : t.MethodByName methodName = none) :
    monkeyFunc R mem (some t) methodName dest =
      ⟨.ret (none, some .retrieveMethodNameErr), mem, [.methodByName t methodName]⟩ := by
  simp [monkeyFunc, h]

theorem monkeyFunc_of_present (R : Redirector) (mem : Mem) (t : RType) (methodName : String)
    (dest : ReflectValue) (m : Method) (h : t.MethodByName methodName = some m) :
    monkeyFunc R mem (some t) methodName dest =
      ⟨match (R.ApplyCore mem R.NewPatches m.Func dest).1 with
        | .panic q => .panic q
        | .ret x => .ret (some x, none),
       (R.ApplyCore mem R.NewPatches m.Func dest).2,
       [.methodByName t methodName, .newPatches, .applyCore m.Func dest]⟩ := by
  simp only [monkeyFunc, h]
  rcases hr : R.ApplyCore mem R.NewPatches m.Func dest with ⟨o, mem1⟩
  cases o <;> rfl

/-! ## The interpreter stage: order of the calls -/

/-- C8: `loadPatch` constructs a new interpreter and registers the tables in the
order stdlib, unsafe, syscall, unrestricted, interp, caller; whatever happens, its
calls are an initial segment of construction, six registrations, load of the
file, evaluation.  If the registration of a table fails with `e` after those
before it succeeded, `loadPatch` returns the zero Value with `e` and has called
nothing after that registration.  If all six succeed, the file is loaded once; if
the load fails with `e`, the zero Value and `e` are returned without evaluation;
otherwise the expression is evaluated once and the outcome of `Eval` is returned
unchanged.  The file is loaded only after six successful registrations and the
expression is evaluated only after a successful load. -/
theorem loadPatch_order {σ : Type} (I : Interp σ) (p : patch) :
    registrationOrder p =
      [.stdlibSymbols, .unsafeSymbols, .syscallSymbols, .unrestrictedSymbols,
        .interpSymbols, p.symbols] ∧
    (∃ rest, (loadPatch I p).calls ++ rest =
      .interpNew :: (registrationOrder p).map Call.use
        ++ [.evalPath p.filePath, .eval p.evalText]) ∧
    (∀ s0 : σ, I.New = .ret s0 →
      (∀ (pre post : List Exports) (x : Exports) (s s1 : σ) (e : ExtError),
        registrationOrder p = pre ++ x :: post → afterUses I s0 pre = some s →
        I.Use s x = .ret (s1, some e) →
        loadPatch I p = ⟨.ret (.zero, some e), .interpNew :: (pre ++ [x]).map Call.use⟩) ∧
      (∀ (s s1 : σ) (e : ExtError),
        afterUses I s0 (registrationOrder p) = some s →
        I.EvalPath s p.filePath = .ret (s1, some e) →
        loadPatch I p =
          ⟨.ret (.zero, some e),
            .interpNew :: (registrationOrder p).map Call.use ++ [.evalPath p.filePath]⟩) ∧
      (∀ (s s1 : σ),
        afterUses I s0 (registrationOrder p) = some s →
        I.EvalPath s p.filePath = .ret (s1, none) →
        loadPatch I p =
          ⟨I.Eval s1 p.evalText,
            .interpNew :: (registrationOrder p).map Call.use
              ++ [.evalPath p.filePath, .eval p.evalText]⟩) ∧
      (∀ path, Call.evalPath path ∈ (loadPatch I p).calls →
        ∃ s, afterUses I s0 (registrationOrder p) = some s) ∧
      (∀ src, Call.eval src ∈ (loadPatch I p).calls →
        ∃ s s1, afterUses I s0 (registrationOrder p) = some s ∧
          I.EvalPath s p.filePath = .ret (s1, none))) := by
  refine ⟨rfl, loadPatch_calls_plan I p, ?_⟩
  intro s0 h0
  have huse : ∀ c ∈ (useEach I s0 (registrationOrder p)).calls, ∃ x, c = Call.use x := by
    intro c hc
    obtain ⟨rest, hrest⟩ := useEach_calls_use I (registrationOrder p) s0
    have hmem : c ∈ (registrationOrder p).map Call.use := by
      rw [← hrest]; exact List.mem_append_left _ hc
    obtain ⟨x, _, hx⟩ := List.mem_map.mp hmem
    exact ⟨x, hx.symm⟩
  refine ⟨?_, ?_, ?_, ?_, ?_⟩
  · intro pre post x s s1 e hsplit hpre hx
    rw [loadPatch_eq I p s0 h0, hsplit, useEach_stop I pre post x s0 s s1 e hpre hx]
  · intro s s1 e hall hload
    rw [loadPatch_eq I p s0 h0, useEach_of_afterUses I _ s0 s hall]
    simp [hload]
  · intro s s1 hall hload
    rw [loadPatch_eq I p s0 h0, useEach_of_afterUses I _ s0 s hall]
    simp [hload]
  · intro path hc
    rw [loadPatch_eq I p s0 h0] at hc
    cases hr : (useEach I s0 (registrationOrder p)).out with
    | panic q =>
      simp only [hr, List.mem_cons] at hc
      rcases hc with hc | hc
      · cases hc
      · obtain ⟨x, hx⟩ := huse _ hc; cases hx
    | ret a =>
      obtain ⟨s1, e⟩ := a
      cases e with
      | some e =>
        simp only [hr, List.mem_cons] at hc
        rcases hc with hc | hc
        · cases hc
        · obtain ⟨x, hx⟩ := huse _ hc; cases hx
      | none => exact ⟨s1, afterUses_of_useEach I _ s0 s1 hr⟩
  · intro src hc
    rw [loadPatch_eq I p s0 h0] at hc
    cases hr : (useEach I s0 (registrationOrder p)).out with
    | panic q =>
      simp only [hr, List.mem_cons] at hc
      rcases hc with hc | hc
      · cases hc
      · obtain ⟨x, hx⟩ := huse _ hc; cases hx
    | ret a =>
      obtain ⟨s1, e⟩ := a
      cases e with
      | some e =>
        simp only [hr, List.mem_cons] at hc
        rcases hc with hc | hc
        · cases hc
        · obtain ⟨x, hx⟩ := huse _ hc; cases hx
      | none =>
        simp only [hr] at hc
        cases hl : I.EvalPath s1 p.filePath with
        | panic q =>
          simp [hl] at hc
          obtain ⟨x, hx⟩ := huse _ hc
          cases hx
        | ret c =>
          obtain ⟨s2, e2⟩ := c
          cases e2 with
          | some e2 =>
            simp [hl] at hc
            obtain ⟨x, hx⟩ := huse _ hc
            cases hx
          | none => exact ⟨s1, s2, afterUses_of_useEach I _ s0 s1 hr, hl⟩

/-- Witness of C8: the third table, syscall, is rejected; the file is not loaded
and nothing is evaluated. -/
theorem loadPatch_order_witness :
    loadPatch (Script.interp ⟨some .syscallSymbols, none, .ret (.zero, none)⟩)
        ⟨"patch/patch_http.go", "patch.PatchTestHandler()", exampleSymbols⟩ =
      ⟨.ret (.zero, some ⟨"malformed symbol table"⟩),
        [.interpNew, .use .stdlibSymbols, .use .unsafeSymbols, .use .syscallSymbols]⟩ :=
  ((loadPatch_order (Script.interp ⟨some .syscallSymbols, none, .ret (.zero, none)⟩)
      ⟨"patch/patch_http.go", "patch.PatchTestHandler()", exampleSymbols⟩).2.2 [] rfl).1
    [.stdlibSymbols, .unsafeSymbols] [.unrestrictedSymbols, .interpSymbols, exampleSymbols]
    .syscallSymbols [.stdlibSymbols, .unsafeSymbols] [.stdlibSymbols, .unsafeSymbols]
    ⟨"malformed symbol table"⟩ rfl rfl rfl

/-! ## The guard layer -/

/-- C2: `ApplyFunc` always returns normally.  When a stage panics with a value
`r` (the interpreter stage, `Interface` on the value it returned, the field
access through a nil descriptor pointer, `MethodByName` on a nil type, or
`ApplyCore` of the redirector), the result is a nil handle and the error whose
message is the rendering of `r`, then the separator, then the stack snapshot. -/
theorem applyFunc_guard_exhaustive {σ : Type} (E : Env σ) (mem : Mem)
    (filePath evalText : String) (symbols : Exports) :
    (∃ h e, (ApplyFunc E mem filePath evalText symbols).out = .ret (h, e)) ∧
    (∀ r : PanicValue,
      ((loadPatch E.interp ⟨filePath, evalText, symbols⟩).out = .panic r ∨
       (∃ v, (loadPatch E.interp ⟨filePath, evalText, symbols⟩).out = .ret (v, none) ∧
          v.Interface = .panic r) ∨
       ((loadPatch E.interp ⟨filePath, evalText, symbols⟩).out
          = .ret (.of (.ptrFuncPatch none), none) ∧ r = nilDereference) ∨
       (∃ fp, (loadPatch E.interp ⟨filePath, evalText, symbols⟩).out
          = .ret (.of (.ptrFuncPatch (some fp)), none) ∧
          ((fp.StructType = none ∧ r = nilDereference) ∨
           (∃ t m, fp.StructType = some t ∧ t.MethodByName fp.FuncName = some m ∧
              (E.redirector.ApplyCore mem E.redirector.NewPatches m.Func fp.FuncValue).1
                = .panic r)))) →
      (ApplyFunc E mem filePath evalText symbols).out =
        .ret (none, some (.errorf (r.text ++ " \n " ++ E.debugStack)))) := by
  constructor
  · cases hl : (loadPatch E.interp ⟨filePath, evalText, symbols⟩).out with
    | panic q => exact ⟨_, _, by rw [applyFunc_of_load_panic E mem _ _ _ q hl]⟩
    | ret a =>
      obtain ⟨v, e⟩ := a
      cases e with
      | some e => exact ⟨_, _, by rw [applyFunc_of_load_error E mem _ _ _ v e hl]⟩
      | none =>
        cases v with
        | zero => exact ⟨_, _, by rw [applyFunc_of_interface_panic E mem _ _ _ _ _ hl rfl]⟩
        | readOnly d =>
          exact ⟨_, _, by rw [applyFunc_of_interface_panic E mem _ _ _ _ _ hl rfl]⟩
        | of d =>
          cases d with
          | nilInterface => exact ⟨_, _, by rw [applyFunc_of_other E mem _ _ _ _ hl rfl]⟩
          | valFuncPatch x => exact ⟨_, _, by rw [applyFunc_of_other E mem _ _ _ _ hl rfl]⟩
          | other x => exact ⟨_, _, by rw [applyFunc_of_other E mem _ _ _ _ hl rfl]⟩
          | ptrFuncPatch o =>
            cases o with
            | none => exact ⟨_, _, by rw [applyFunc_of_nil_pointer E mem _ _ _ hl]⟩
            | some fp =>
              rw [applyFunc_of_descriptor E mem _ _ _ fp hl]
              cases (monkeyFunc E.redirector mem fp.StructType fp.FuncName fp.FuncValue).out with
              | panic q => exact ⟨_, _, rfl⟩
              | ret r => exact ⟨r.1, r.2, rfl⟩
  · intro r hr
    rcases hr with hl | ⟨v, hl, hv⟩ | ⟨hl, hr⟩ | ⟨fp, hl, hm⟩
    · rw [applyFunc_of_load_panic E mem _ _ _ r hl]; rfl
    · rw [applyFunc_of_interface_panic E mem _ _ _ v r hl hv]; rfl
    · subst hr
      rw [applyFunc_of_nil_pointer E mem _ _ _ hl]; rfl
    · rw [applyFunc_of_descriptor E mem _ _ _ fp hl]
      rcases hm with ⟨hT, hr⟩ | ⟨t, m, hT, hm, hp⟩
      · subst hr
        rw [hT, monkeyFunc_of_nil]; rfl
      · rw [hT, monkeyFunc_of_present _ _ _ _ _ m hm]
        simp only [hp]
        rfl

/-- Witness of C2: the script panics with `boom` during evaluation. -/
theorem applyFunc_guard_exhaustive_witness :
    (ApplyFunc (hostEnv ⟨none, none, .panic ⟨"boom"⟩⟩) pristine "patch/patch_http.go"
        "patch.PatchTestHandler()" exampleSymbols).out =
      .ret (none, some (.errorf ("boom" ++ " \n " ++ "goroutine 1 [running]"))) :=
  (applyFunc_guard_exhaustive (hostEnv ⟨none, none, .panic ⟨"boom"⟩⟩) pristine
    "patch/patch_http.go" "patch.PatchTestHandler()" exampleSymbols).2 ⟨"boom"⟩
    (Or.inl (by decide))

/-! ## Failure paths -/

theorem not_lookup_not_redirector_of_isInterp (c : Call) (h : c.isInterp = true) :
    c.isLookup = false ∧ c.isRedirector = false := by
  cases c <;> simp_all [Call.isInterp, Call.isLookup, Call.isRedirector]

/-- C3: when the interpreter stage returns an error `e`, `ApplyFunc` returns a nil
handle and exactly `e`; the code memory is unchanged and the only calls made are
those of the interpreter stage: no `Interface`, no method lookup, no redirector. -/
theorem applyFunc_interpreter_error {σ : Type} (E : Env σ) (mem : Mem)
    (filePath evalText : String) (symbols : Exports) (v : EvalValue) (e : ExtError)
    (h : (loadPatch E.interp ⟨filePath, evalText, symbols⟩).out = .ret (v, some e)) :
    (ApplyFunc E mem filePath evalText symbols).out = .ret (none, some (.external e)) ∧
    (ApplyFunc E mem filePath evalText symbols).mem = mem ∧
    (ApplyFunc E mem filePath evalText symbols).calls =
      (loadPatch E.interp ⟨filePath, evalText, symbols⟩).calls ∧
    (∀ c ∈ (ApplyFunc E mem filePath evalText symbols).calls,
      c.isInterp = true ∧ c ≠ .valueInterface ∧ c.isLookup = false ∧
        c.isRedirector = false) := by
  rw [applyFunc_of_load_error E mem _ _ _ v e h]
  refine ⟨rfl, rfl, rfl, ?_⟩
  intro c hc
  have hi := loadPatch_calls_isInterp E.interp ⟨filePath, evalText, symbols⟩ c hc
  have hn := not_lookup_not_redirector_of_isInterp c hi
  refine ⟨hi, ?_, hn.1, hn.2⟩
  intro hEq
  subst hEq
  simp [Call.isInterp] at hi

/-- Witness of C3: the script file does not parse, so `EvalPath` returns an error. -/
theorem applyFunc_interpreter_error_witness :
    (ApplyFunc (hostEnv ⟨none, some ⟨"1:1: expected 'package', found 'EOF'"⟩,
        .ret (.of (.ptrFuncPatch (some patchTestHandler)), none)⟩) pristine
        "patch/patch_http.go" "patch.PatchTestHandler()" exampleSymbols).out =
      .ret (none, some (.external ⟨"1:1: expected 'package', found 'EOF'"⟩)) :=
  (applyFunc_interpreter_error (hostEnv ⟨none, some ⟨"1:1: expected 'package', found 'EOF'"⟩,
      .ret (.of (.ptrFuncPatch (some patchTestHandler)), none)⟩) pristine
    "patch/patch_http.go" "patch.PatchTestHandler()" exampleSymbols .zero
    ⟨"1:1: expected 'package', found 'EOF'"⟩ (by decide)).1

/-- C10: `ApplyFunc` returns a pair of which exactly one component is nil: the
handle is non-nil if and only if the error is nil.  A non-nil handle is the one
`ApplyCore` returned normally, on a call the pipeline made. -/
theorem applyFunc_result_exclusive {σ : Type} (E : Env σ) (mem : Mem)
    (filePath evalText : String) (symbols : Exports) :
    ∃ h e, (ApplyFunc E mem filePath evalText symbols).out = .ret (h, e) ∧
      (h ≠ none ↔ e = none) ∧
      (∀ x, h = some x → ∃ target double,
        Call.applyCore target double ∈ (ApplyFunc E mem filePath evalText symbols).calls ∧
        (E.redirector.ApplyCore mem E.redirector.NewPatches target double).1 = .ret x) := by
  cases hl : (loadPatch E.interp ⟨filePath, evalText, symbols⟩).out with
  | panic q =>
    rw [applyFunc_of_load_panic E mem _ _ _ q hl]
    exact ⟨_, _, rfl, by simp, by simp⟩
  | ret a =>
    obtain ⟨v, e⟩ := a
    cases e with
    | some e =>
      rw [applyFunc_of_load_error E mem _ _ _ v e hl]
      exact ⟨_, _, rfl, by simp, by simp⟩
    | none =>
      cases v with
      | zero =>
        rw [applyFunc_of_interface_panic E mem _ _ _ _ _ hl rfl]
        exact ⟨_, _, rfl, by simp, by simp⟩
      | readOnly d =>
        rw [applyFunc_of_interface_panic E mem _ _ _ _ _ hl rfl]
        exact ⟨_, _, rfl, by simp, by simp⟩
      | of d =>
        cases d with
        | nilInterface =>
          rw [applyFunc_of_other E mem _ _ _ _ hl rfl]
          exact ⟨_, _, rfl, by simp, by simp⟩
        | valFuncPatch x =>
          rw [applyFunc_of_other E mem _ _ _ _ hl rfl]
          exact ⟨_, _, rfl, by simp, by simp⟩
        | other x =>
          rw [applyFunc_of_other E mem _ _ _ _ hl rfl]
          exact ⟨_, _, rfl, by simp, by simp⟩
        | ptrFuncPatch o =>
          cases o with
          | none =>
            rw [applyFunc_of_nil_pointer E mem _ _ _ hl]
            exact ⟨_, _, rfl, by simp, by simp⟩
          | some fp =>
            rw [applyFunc_of_descriptor E mem _ _ _ fp hl]
            cases hT : fp.StructType with
            | none =>
              rw [monkeyFunc_of_nil]
              exact ⟨_, _, rfl, by simp, by simp⟩
            | some t =>
              cases hm : t.MethodByName fp.FuncName with
              | none =>
                rw [monkeyFunc_of_absent _ _ _ _ _ hm]
                exact ⟨_, _, rfl, by simp, by simp⟩
              | some m =>
                rw [monkeyFunc_of_present _ _ _ _ _ m hm]
                cases hr : (E.redirector.ApplyCore mem E.redirector.NewPatches m.Func
                  fp.FuncValue).1 with
                | panic q => exact ⟨_, _, rfl, by simp, by simp⟩
                | ret x =>
                  refine ⟨_, _, rfl, by simp, ?_⟩
                  intro y hy
                  simp only [Option.some.injEq] at hy
                  subst hy
                  exact ⟨m.Func, fp.FuncValue, by simp, hr⟩

/-! ## Descriptor extraction -/

/-- C5, as the claim states it, fails: the expression evaluates to a nil
`*FuncPatch`.  The type assertion succeeds, the read of `fp.StructType` panics,
and `ApplyFunc` returns the error of the recovery boundary, not
`convertFuncPatchErr`. -/
theorem applyFunc_nil_descriptor_not_convert_error :
    (ApplyFunc (hostEnv (scriptYielding (.of (.ptrFuncPatch none)))) pristine
        "patch/patch_http.go" "patch.NilPatch()" exampleSymbols).out =
      .ret (none, some (.errorf ("runtime error: invalid memory address or nil pointer "
        ++ "dereference \n goroutine 1 [running]"))) ∧
    (ApplyFunc (hostEnv (scriptYielding (.of (.ptrFuncPatch none)))) pristine
        "patch/patch_http.go" "patch.NilPatch()" exampleSymbols).out
      ≠ .ret (none, some .convertFuncPatchErr) := by
  decide

/-- C5, amended: let the interpreter stage return the value `v` without error.
If `v` is a valid Value that is not read-only and whose dynamic type is not
`*FuncPatch`, `ApplyFunc` returns a nil handle and `convertFuncPatchErr`.  If `v`
is the zero Value or a read-only Value (`Interface` panics), a nil `*FuncPatch`,
or a `*FuncPatch` whose `StructType` is nil, the pipeline panics and `ApplyFunc`
returns a nil handle and the error of the recovery boundary.  In these cases the
code memory is unchanged and, after the interpreter stage, the only call made is
`Interface`: no method is looked up and the redirector is not called.  A non-nil
`*FuncPatch` with a non-nil `StructType` is not rejected by the extraction,
whatever its `FuncName` and `FuncValue`: the method is looked up; if no method has
that name, `ApplyFunc` returns a nil handle and `retrieveMethodNameErr` without
calling the redirector; if one has, the redirector is called on the entry of the
method and `FuncValue` as it is (a zero Value included), and `ApplyFunc` returns
the handle when that call returns and the error of the recovery boundary when it
panics. -/
theorem applyFunc_descriptor_extraction {σ : Type} (E : Env σ) (mem : Mem)
    (filePath evalText : String) (symbols : Exports) (v : EvalValue)
    (h : (loadPatch E.interp ⟨filePath, evalText, symbols⟩).out = .ret (v, none)) :
    (∀ d, v = .of d → (∀ o, d ≠ .ptrFuncPatch o) →
      ApplyFunc E mem filePath evalText symbols =
        ⟨.ret (none, some .convertFuncPatchErr), mem,
          (loadPatch E.interp ⟨filePath, evalText, symbols⟩).calls ++ [.valueInterface]⟩) ∧
    (v = .zero →
      ApplyFunc E mem filePath evalText symbols =
        ⟨.ret (none, some (.errorf (recoveredMessage zeroValueInterface E.debugStack))), mem,
          (loadPatch E.interp ⟨filePath, evalText, symbols⟩).calls ++ [.valueInterface]⟩) ∧
    (∀ d, v = .readOnly d →
      ApplyFunc E mem filePath evalText symbols =
        ⟨.ret (none, some (.errorf (recoveredMessage readOnlyInterface E.debugStack))), mem,
          (loadPatch E.interp ⟨filePath, evalText, symbols⟩).calls ++ [.valueInterface]⟩) ∧
    (v = .of (.ptrFuncPatch none) →
      ApplyFunc E mem filePath evalText symbols =
        ⟨.ret (none, some (.errorf (recoveredMessage nilDereference E.debugStack))), mem,
          (loadPatch E.interp ⟨filePath, evalText, symbols⟩).calls ++ [.valueInterface]⟩) ∧
    (∀ fp, v = .of (.ptrFuncPatch (some fp)) → fp.StructType = none →
      ApplyFunc E mem filePath evalText symbols =
        ⟨.ret (none, some (.errorf (recoveredMessage nilDereference E.debugStack))), mem,
          (loadPatch E.interp ⟨filePath, evalText, symbols⟩).calls ++ [.valueInterface]⟩) ∧
    (∀ c ∈ (loadPatch E.interp ⟨filePath, evalText, symbols⟩).calls ++ [.valueInterface],
      c.isLookup = false ∧ c.isRedirector = false) ∧
    (∀ fp T, v = .of (.ptrFuncPatch (some fp)) → fp.StructType = some T →
      (∀ m ∈ T.methods, m.Name ≠ fp.FuncName) →
      ApplyFunc E mem filePath evalText symbols =
        ⟨.ret (none, some .retrieveMethodNameErr), mem,
          (loadPatch E.interp ⟨filePath, evalText, symbols⟩).calls ++
            [.valueInterface, .methodByName T fp.FuncName]⟩) ∧
    (∀ fp T m, v = .of (.ptrFuncPatch (some fp)) → fp.StructType = some T →
      T.MethodByName fp.FuncName = some m →
      (ApplyFunc E mem filePath evalText symbols).calls =
        (loadPatch E.interp ⟨filePath, evalText, symbols⟩).calls ++
          [.valueInterface, .methodByName T fp.FuncName, .newPatches,
            .applyCore m.Func fp.FuncValue] ∧
      (ApplyFunc E mem filePath evalText symbols).mem =
        (E.redirector.ApplyCore mem E.redirector.NewPatches m.Func fp.FuncValue).2 ∧
      (∀ q, (E.redirector.ApplyCore mem E.redirector.NewPatches m.Func fp.FuncValue).1
          = .panic q →
        (ApplyFunc E mem filePath evalText symbols).out =
          .ret (none, some (.errorf (recoveredMessage q E.debugStack)))) ∧
      (∀ x, (E.redirector.ApplyCore mem E.redirector.NewPatches m.Func fp.FuncValue).1
          = .ret x →
        (ApplyFunc E mem filePath evalText symbols).out = .ret (some x, none))) := by
  refine ⟨?_, ?_, ?_, ?_, ?_, ?_, ?_, ?_⟩
  · intro d hv hd
    subst hv
    apply applyFunc_of_other E mem _ _ _ d h
    cases d with
    | ptrFuncPatch o => exact absurd rfl (hd o)
    | nilInterface => rfl
    | valFuncPatch x => rfl
    | other x => rfl
  · intro hv
    subst hv
    exact applyFunc_of_interface_panic E mem _ _ _ _ _ h rfl
  · intro d hv
    subst hv
    exact applyFunc_of_interface_panic E mem _ _ _ _ _ h rfl
  · intro hv
    subst hv
    exact applyFunc_of_nil_pointer E mem _ _ _ h
  · intro fp hv hT
    subst hv
    rw [applyFunc_of_descriptor E mem _ _ _ fp h, hT, monkeyFunc_of_nil]
  · intro c hc
    rcases List.mem_append.mp hc with hc | hc
    · exact not_lookup_not_redirector_of_isInterp c
        (loadPatch_calls_isInterp E.interp ⟨filePath, evalText, symbols⟩ c hc)
    · simp only [List.mem_singleton] at hc
      subst hc
      exact ⟨rfl, rfl⟩
  · intro fp T hv hT hno
    subst hv
    have habs : T.MethodByName fp.FuncName = none := by
      simpa [RType.MethodByName, List.find?_eq_none] using hno
    rw [applyFunc_of_descriptor E mem _ _ _ fp h, hT, monkeyFunc_of_absent _ _ _ _ _ habs]
  · intro fp T m hv hT hm
    subst hv
    rw [applyFunc_of_descriptor E mem _ _ _ fp h, hT, monkeyFunc_of_present _ _ _ _ _ m hm]
    cases hr : (E.redirector.ApplyCore mem E.redirector.NewPatches m.Func fp.FuncValue).1 with
    | panic q =>
      refine ⟨rfl, rfl, ?_, ?_⟩
      · intro q1 hq; cases hq; rfl
      · intro x hx; cases hx
    | ret x =>
      refine ⟨rfl, rfl, ?_, ?_⟩
      · intro q hq; cases hq
      · intro x1 hx; cases hx; rfl

/-- Witness of C5, amended: an expression that yields a `FuncPatch` by value gives
`convertFuncPatchErr`; an expression that yields a read-only Value gives the
error of the recovery boundary. -/
theorem applyFunc_descriptor_extraction_witness :
    (ApplyFunc (hostEnv (scriptYielding (.of (.valFuncPatch patchTestHandler)))) pristine
        "patch/patch_http.go" "*patch.PatchTestHandler()" exampleSymbols).out =
      .ret (none, some .convertFuncPatchErr) ∧
    (ApplyFunc (hostEnv (scriptYielding (.readOnly (.other "int")))) pristine
        "patch/patch_http.go" "patch.Hidden()" exampleSymbols).out =
      .ret (none, some (.errorf (recoveredMessage readOnlyInterface "goroutine 1 [running]"))) :=
  ⟨congrArg Stop.out
    ((applyFunc_descriptor_extraction
      (hostEnv (scriptYielding (.of (.valFuncPatch patchTestHandler)))) pristine
      "patch/patch_http.go" "*patch.PatchTestHandler()" exampleSymbols
      (.of (.valFuncPatch patchTestHandler)) (by decide)).1
      (.valFuncPatch patchTestHandler) rfl (by intro o; exact Dynamic.noConfusion)),
   congrArg Stop.out
    ((applyFunc_descriptor_extraction
      (hostEnv (scriptYielding (.readOnly (.other "int")))) pristine
      "patch/patch_http.go" "patch.Hidden()" exampleSymbols
      (.readOnly (.other "int")) (by decide)).2.2.1 (.other "int") rfl)⟩

/-! ## Method resolution -/

/-- C6: for a non-nil type `T`, `monkeyFunc` returns a nil handle with
`retrieveMethodNameErr` exactly when the method table of `T` has no method named
`n`; then the only call made is the lookup and the code memory is unchanged.  When
the method `m` is found, `monkeyFunc` creates a handle and calls `ApplyCore` once,
on `m.Func` and `d` as they are, and its outcome and memory are those of that
call, whatever the types of `m.Func` and `d`. -/
theorem monkeyFunc_method_resolution (R : Redirector) (mem : Mem) (T : RType) (n : String)
    (d : ReflectValue) :
    ((monkeyFunc R mem (some T) n d).out = .ret (none, some .retrieveMethodNameErr) ↔
      ∀ m ∈ T.methods, m.Name ≠ n) ∧
    ((∀ m ∈ T.methods, m.Name ≠ n) →
      (monkeyFunc R mem (some T) n d).mem = mem ∧
      (monkeyFunc R mem (some T) n d).calls = [.methodByName T n]) ∧
    (∀ m, T.MethodByName n = some m →
      (monkeyFunc R mem (some T) n d).calls =
        [.methodByName T n, .newPatches, .applyCore m.Func d] ∧
      (monkeyFunc R mem (some T) n d).mem = (R.ApplyCore mem R.NewPatches m.Func d).2 ∧
      (∀ x, (R.ApplyCore mem R.NewPatches m.Func d).1 = .ret x →
        (monkeyFunc R mem (some T) n d).out = .ret (some x, none)) ∧
      (∀ q, (R.ApplyCore mem R.NewPatches m.Func d).1 = .panic q →
        (monkeyFunc R mem (some T) n d).out = .panic q)) := by
  have habs : T.MethodByName n = none ↔ ∀ m ∈ T.methods, m.Name ≠ n := by
    simp [RType.MethodByName, List.find?_eq_none]
  refine ⟨?_, ?_, ?_⟩
  · rw [← habs]
    constructor
    · intro ho
      cases hm : T.MethodByName n with
      | none => rfl
      | some m =>
        rw [monkeyFunc_of_present R mem T n d m hm] at ho
        simp only at ho
        cases hr : (R.ApplyCore mem R.NewPatches m.Func d).1 with
        | panic q => simp [hr] at ho
        | ret x => simp [hr] at ho
    · intro hm
      rw [monkeyFunc_of_absent R mem T n d hm]
  · intro hno
    rw [monkeyFunc_of_absent R mem T n d (habs.mpr hno)]
    exact ⟨rfl, rfl⟩
  · intro m hm
    rw [monkeyFunc_of_present R mem T n d m hm]
    refine ⟨rfl, rfl, ?_, ?_⟩
    · intro x hx; simp only [hx]
    · intro q hq; simp only [hq]

/-- Witness of C6: `HttpSvc` has no method `Missing`. -/
theorem monkeyFunc_method_resolution_witness :
    (monkeyFunc (specRedirector jmp3) pristine (some httpSvc) "Missing"
        (.func handlerFunc 512)).mem = pristine ∧
    (monkeyFunc (specRedirector jmp3) pristine (some httpSvc) "Missing"
        (.func handlerFunc 512)).calls = [.methodByName httpSvc "Missing"] :=
  (monkeyFunc_method_resolution (specRedirector jmp3) pristine httpSvc "Missing"
    (.func handlerFunc 512)).2.1 (by decide)

/-! ## Code memory -/

theorem readBytes_length (mem : Mem) (a n : Nat) : (readBytes mem a n).length = n := by
  simp [readBytes]

theorem writeBytes_outside (mem : Mem) (a : Nat) (bs : List Nat) (x : Nat)
    (h : x < a ∨ a + bs.length ≤ x) : writeBytes mem a bs x = mem x := by
  unfold writeBytes
  rw [if_neg]
  omega

theorem writeBytes_inside (mem : Mem) (a : Nat) (bs : List Nat) (i : Nat)
    (h : i < bs.length) : writeBytes mem a bs (a + i) = bs[i] := by
  unfold writeBytes
  rw [if_pos (by omega)]
  simp [List.getD_eq_getElem?_getD, h]

theorem readBytes_writeBytes (mem : Mem) (a : Nat) (bs : List Nat) :
    readBytes (writeBytes mem a bs) a bs.length = bs := by
  apply List.ext_getElem
  · simp [readBytes]
  · intro i h1 h2
    simp only [readBytes, List.getElem_map, List.getElem_range]
    exact writeBytes_inside mem a bs i h2

theorem writeBytes_readBytes (mem : Mem) (a : Nat) (bs : List Nat) :
    writeBytes (writeBytes mem a bs) a (readBytes mem a bs.length) = mem := by
  funext x
  by_cases hx : a ≤ x ∧ x < a + bs.length
  · obtain ⟨i, rfl⟩ : ∃ i, x = a + i := ⟨x - a, by omega⟩
    have hi : i < (readBytes mem a bs.length).length := by
      rw [readBytes_length]; omega
    rw [writeBytes_inside _ a _ i hi]
    simp [readBytes]
  · have hout : x < a ∨ a + bs.length ≤ x := by omega
    rw [writeBytes_outside _ a _ x (by rw [readBytes_length]; exact hout),
      writeBytes_outside _ a _ x hout]

/-! ## The redirector of the specification -/

theorem specApplyCore_of_match (jmp : Nat → List Nat) (mem : Mem) (h : Patches)
    (ty : FuncType) (et ed : Nat) :
    specApplyCore jmp mem h (.func ty et) (.func ty ed) =
      (.ret ⟨h.records ++ [⟨et, readBytes mem et (jmp ed).length, ed⟩]⟩,
        writeBytes mem et (jmp ed)) := by
  simp [specApplyCore]

theorem specApplyCore_of_mismatch (jmp : Nat → List Nat) (mem : Mem) (h : Patches)
    (tt dt : FuncType) (et ed : Nat) (hne : tt ≠ dt) :
    specApplyCore jmp mem h (.func tt et) (.func dt ed) = (.panic signatureMismatch, mem) := by
  simp [specApplyCore, hne]

theorem filter_isRedirector_loadPatch {σ : Type} (I : Interp σ) (p : patch) :
    (loadPatch I p).calls.filter Call.isRedirector = [] := by
  rw [List.filter_eq_nil_iff]
  intro c hc
  have := (not_lookup_not_redirector_of_isInterp c (loadPatch_calls_isInterp I p c hc)).2
  simp [this]

/-- The run of `ApplyFunc` on a descriptor whose replacement has the type of the
target method, with the redirector of the specification. -/
theorem applyFunc_spec_install {σ : Type} (I : Interp σ) (jmp : Nat → List Nat)
    (stack : String) (mem : Mem) (filePath evalText : String) (symbols : Exports)
    (fp : FuncPatch) (T : RType) (m : Method) (ty : FuncType) (et ed : Nat)
    (hl : (loadPatch I ⟨filePath, evalText, symbols⟩).out
      = .ret (.of (.ptrFuncPatch (some fp)), none))
    (hT : fp.StructType = some T) (hm : T.MethodByName fp.FuncName = some m)
    (hf : m.Func = .func ty et) (hd : fp.FuncValue = .func ty ed) :
    ApplyFunc ⟨I, specRedirector jmp, stack⟩ mem filePath evalText symbols =
      ⟨.ret (some ⟨[⟨et, readBytes mem et (jmp ed).length, ed⟩]⟩, none),
        writeBytes mem et (jmp ed),
        (loadPatch I ⟨filePath, evalText, symbols⟩).calls ++
          [.valueInterface, .methodByName T fp.FuncName, .newPatches,
            .applyCore m.Func fp.FuncValue]⟩ := by
  rw [applyFunc_of_descriptor ⟨I, specRedirector jmp, stack⟩ mem _ _ _ fp hl]
  simp only []
  rw [hT, monkeyFunc_of_present _ _ _ _ _ m hm]
  simp only [specRedirector]
  rw [hf, hd, specApplyCore_of_match]
  simp

/-! ## The success path -/

/-- C1: let the interpreter stage return a non-nil `*FuncPatch` `fp` without
error, let `fp.StructType` have a method named `fp.FuncName`, and let
`fp.FuncValue` be a function of exactly the type of that method.  Then `ApplyFunc`
returns a non-nil handle and a nil error, the redirector was called once, on the
entry of the method and `fp.FuncValue`, the entry of the method now holds the jump
to the replacement, and no byte outside that jump was changed. -/
theorem applyFunc_success {σ : Type} (I : Interp σ) (jmp : Nat → List Nat)
    (stack : String) (mem : Mem) (filePath evalText : String) (symbols : Exports)
    (fp : FuncPatch) (T : RType) (m : Method) (ty : FuncType) (et ed : Nat)
    (hl : (loadPatch I ⟨filePath, evalText, symbols⟩).out
      = .ret (.of (.ptrFuncPatch (some fp)), none))
    (hT : fp.StructType = some T) (hm : T.MethodByName fp.FuncName = some m)
    (hf : m.Func = .func ty et) (hd : fp.FuncValue = .func ty ed) :
    (∃ h, (ApplyFunc ⟨I, specRedirector jmp, stack⟩ mem filePath evalText symbols).out
      = .ret (some h, none)) ∧
    (ApplyFunc ⟨I, specRedirector jmp, stack⟩ mem filePath evalText symbols).calls.filter
      Call.isRedirector = [.newPatches, .applyCore m.Func fp.FuncValue] ∧
    readBytes (ApplyFunc ⟨I, specRedirector jmp, stack⟩ mem filePath evalText symbols).mem
      et (jmp ed).length = jmp ed ∧
    (∀ a, a < et ∨ et + (jmp ed).length ≤ a →
      (ApplyFunc ⟨I, specRedirector jmp, stack⟩ mem filePath evalText symbols).mem a
        = mem a) := by
  rw [applyFunc_spec_install I jmp stack mem _ _ _ fp T m ty et ed hl hT hm hf hd]
  refine ⟨⟨_, rfl⟩, ?_, readBytes_writeBytes mem et (jmp ed), ?_⟩
  · simp only [List.filter_append, filter_isRedirector_loadPatch]
    simp [List.filter, Call.isRedirector]
  · intro a ha
    exact writeBytes_outside mem et (jmp ed) a ha

/-- Witness of C1: the request `PatchTestHandler` of the example replaces
`HttpSvc.Index`, entered at address 128, by the closure at address 512. -/
theorem applyFunc_success_witness :
    (∃ h, appliedOnce.out = .ret (some h, none)) ∧
    appliedOnce.calls.filter Call.isRedirector =
      [.newPatches, .applyCore (.func handlerFunc 128) (.func handlerFunc 512)] ∧
    readBytes appliedOnce.mem 128 3 = [233, 0, 2] ∧
    (∀ a, a < 128 ∨ 128 + 3 ≤ a → appliedOnce.mem a = pristine a) :=
  applyFunc_success (scriptYielding (.of (.ptrFuncPatch (some patchTestHandler)))).interp jmp3
    "goroutine 1 [running]" pristine "patch/patch_http.go" "patch.PatchTestHandler()"
    exampleSymbols patchTestHandler httpSvc ⟨"Index", .func handlerFunc 128⟩ handlerFunc 128 512
    (by decide) rfl (by decide) rfl rfl

/-! ## Signature mismatch -/

/-- C4, as the claim states it, fails: the replacement lacks the receiver
parameter, the redirector refuses it, and `ApplyFunc` returns the error built by
the recovery boundary from the text of the failure and the stack snapshot, which
is a recovered panic and not an error of the signature-mismatch class.  The entry
of `Index` keeps its bytes. -/
theorem applyFunc_mismatch_is_recovered_panic :
    (ApplyFunc (hostEnv (scriptYielding (.of (.ptrFuncPatch (some patchWrongSignature)))))
        pristine "patch/patch_http.go" "patch.PatchTestHandler()" exampleSymbols).out =
      .ret (none, some (.errorf "SignatureMismatchError \n goroutine 1 [running]")) ∧
    (GoError.errorf "SignatureMismatchError \n goroutine 1 [running]").errorClass
      = .panicRecovered ∧
    ¬ (∃ e, (ApplyFunc (hostEnv (scriptYielding (.of (.ptrFuncPatch (some patchWrongSignature)))))
        pristine "patch/patch_http.go" "patch.PatchTestHandler()" exampleSymbols).out =
          .ret (none, some e) ∧ e.errorClass = .signatureMismatch) := by
  have h : (ApplyFunc (hostEnv (scriptYielding (.of (.ptrFuncPatch (some patchWrongSignature)))))
        pristine "patch/patch_http.go" "patch.PatchTestHandler()" exampleSymbols).out =
      .ret (none, some (.errorf "SignatureMismatchError \n goroutine 1 [running]")) := by
    decide
  refine ⟨h, rfl, ?_⟩
  rintro ⟨e, he, hc⟩
  rw [h] at he
  simp only [Outcome.ret.injEq, Prod.mk.injEq, Option.some.injEq, true_and] at he
  subst he
  simp [GoError.errorClass] at hc

/-- C4, amended: when the replacement of the descriptor is a function whose type
differs from the type of the resolved method, `ApplyFunc` returns a nil handle and
the error of the recovery boundary, whose message is the text of the failure of
the redirector, the separator and the stack snapshot; every byte of the code
memory is as before the call. -/
theorem applyFunc_signature_mismatch {σ : Type} (I : Interp σ) (jmp : Nat → List Nat)
    (stack : String) (mem : Mem) (filePath evalText : String) (symbols : Exports)
    (fp : FuncPatch) (T : RType) (m : Method) (tt dt : FuncType) (et ed : Nat)
    (hl : (loadPatch I ⟨filePath, evalText, symbols⟩).out
      = .ret (.of (.ptrFuncPatch (some fp)), none))
    (hT : fp.StructType = some T) (hm : T.MethodByName fp.FuncName = some m)
    (hf : m.Func = .func tt et) (hd : fp.FuncValue = .func dt ed) (hne : tt ≠ dt) :
    (ApplyFunc ⟨I, specRedirector jmp, stack⟩ mem filePath evalText symbols).out =
      .ret (none, some (.errorf (signatureMismatch.text ++ " \n " ++ stack))) ∧
    (ApplyFunc ⟨I, specRedirector jmp, stack⟩ mem filePath evalText symbols).mem = mem ∧
    (GoError.errorf (signatureMismatch.text ++ " \n " ++ stack)).errorClass
      = .panicRecovered := by
  rw [applyFunc_of_descriptor ⟨I, specRedirector jmp, stack⟩ mem _ _ _ fp hl]
  simp only []
  rw [hT, monkeyFunc_of_present _ _ _ _ _ m hm]
  simp only [specRedirector]
  rw [hf, hd, specApplyCore_of_mismatch jmp mem _ tt dt et ed hne]
  exact ⟨rfl, rfl, rfl⟩

/-- Witness of C4, amended: the replacement without receiver parameter, offered
for `HttpSvc.Index`. -/
theorem applyFunc_signature_mismatch_witness :
    (ApplyFunc ⟨(scriptYielding (.of (.ptrFuncPatch (some patchWrongSignature)))).interp,
        specRedirector jmp3, "goroutine 1 [running]"⟩ pristine "patch/patch_http.go"
        "patch.PatchTestHandler()" exampleSymbols).mem = pristine :=
  (applyFunc_signature_mismatch
    (scriptYielding (.of (.ptrFuncPatch (some patchWrongSignature)))).interp jmp3
    "goroutine 1 [running]" pristine "patch/patch_http.go" "patch.PatchTestHandler()"
    exampleSymbols patchWrongSignature httpSvc ⟨"Index", .func handlerFunc 128⟩ handlerFunc
    ⟨["http.ResponseWriter", "*http.Request"], [], false⟩ 128 512
    (by decide) rfl (by decide) rfl rfl (by decide)).2.1

/-! ## Patching the same method twice -/

theorem restore_single (mem : Mem) (a : Nat) (bs : List Nat) (t : Nat) :
    restore mem ⟨[⟨a, bs, t⟩]⟩ = writeBytes mem a bs := by
  simp [restore]

/-- C7, as the claim states it, fails: after the example request has been applied
twice, the handle of the second application holds the jump written by the first,
and restoring it leaves that jump at the entry of `Index` instead of the pristine
bytes. -/
theorem restore_second_handle_not_pristine :
    appliedTwice.out = .ret (some ⟨[⟨128, [233, 0, 2], 512⟩]⟩, none) ∧
    readBytes (restore appliedTwice.mem ⟨[⟨128, [233, 0, 2], 512⟩]⟩) 128 3 = [233, 0, 2] ∧
    readBytes pristine 128 3 = [2, 3, 4] := by
  decide

/-- C7, amended: let two successive requests name the same method and offer
replacements of the type of that method.  Both calls of `ApplyFunc` succeed, each
with its own handle.  After the second, the entry of the method holds the jump to
the second replacement directly (and the memory is the one left by the first call
when the two replacements are at the same address).  Restoring the handle of the
second application gives back the memory left by the first application, and
restoring the handle of the first after that gives back the memory as it was
before any patch. -/
theorem applyFunc_twice {σ : Type} (I1 I2 : Interp σ) (jmp : Nat → List Nat)
    (stack : String) (mem : Mem) (filePath evalText : String) (symbols : Exports)
    (fp1 fp2 : FuncPatch) (T : RType) (m : Method) (ty : FuncType) (et d1 d2 : Nat)
    (hl1 : (loadPatch I1 ⟨filePath, evalText, symbols⟩).out
      = .ret (.of (.ptrFuncPatch (some fp1)), none))
    (hl2 : (loadPatch I2 ⟨filePath, evalText, symbols⟩).out
      = .ret (.of (.ptrFuncPatch (some fp2)), none))
    (hT1 : fp1.StructType = some T) (hT2 : fp2.StructType = some T)
    (hm1 : T.MethodByName fp1.FuncName = some m) (hm2 : T.MethodByName fp2.FuncName = some m)
    (hf : m.Func = .func ty et)
    (hd1 : fp1.FuncValue = .func ty d1) (hd2 : fp2.FuncValue = .func ty d2) :
    ∃ h1 h2 mem1 mem2 c1 c2,
      ApplyFunc ⟨I1, specRedirector jmp, stack⟩ mem filePath evalText symbols
        = ⟨.ret (some h1, none), mem1, c1⟩ ∧
      ApplyFunc ⟨I2, specRedirector jmp, stack⟩ mem1 filePath evalText symbols
        = ⟨.ret (some h2, none), mem2, c2⟩ ∧
      readBytes mem2 et (jmp d2).length = jmp d2 ∧
      (d1 = d2 → mem2 = mem1) ∧
      restore mem2 h2 = mem1 ∧
      restore (restore mem2 h2) h1 = mem := by
  refine ⟨_, _, _, _, _, _,
    applyFunc_spec_install I1 jmp stack mem _ _ _ fp1 T m ty et d1 hl1 hT1 hm1 hf hd1,
    applyFunc_spec_install I2 jmp stack _ _ _ _ fp2 T m ty et d2 hl2 hT2 hm2 hf hd2,
    readBytes_writeBytes _ et (jmp d2), ?_, ?_, ?_⟩
  · intro hd
    subst hd
    funext x
    by_cases hx : x < et ∨ et + (jmp d1).length ≤ x
    · rw [writeBytes_outside _ et _ x hx]
    · obtain ⟨i, rfl⟩ : ∃ i, x = et + i := ⟨x - et, by omega⟩
      have hi : i < (jmp d1).length := by omega
      rw [writeBytes_inside _ et _ i hi, writeBytes_inside _ et _ i hi]
  · rw [restore_single, writeBytes_readBytes]
  · simp only [restore_single]
    rw [writeBytes_readBytes (writeBytes mem et (jmp d1)), writeBytes_readBytes]

/-- Witness of C7, amended: the request `PatchTestHandler` of the example, then
the request `PatchRecoveryHandler`, both for `HttpSvc.Index`. -/
theorem applyFunc_twice_witness :
    ∃ h1 h2 mem1 mem2 c1 c2,
      ApplyFunc ⟨(scriptYielding (.of (.ptrFuncPatch (some patchTestHandler)))).interp,
          specRedirector jmp3, "goroutine 1 [running]"⟩ pristine "patch/patch_http.go"
          "patch.PatchTestHandler()" exampleSymbols = ⟨.ret (some h1, none), mem1, c1⟩ ∧
      ApplyFunc ⟨(scriptYielding (.of (.ptrFuncPatch (some patchRecoveryHandler)))).interp,
          specRedirector jmp3, "goroutine 1 [running]"⟩ mem1 "patch/patch_http.go"
          "patch.PatchTestHandler()" exampleSymbols = ⟨.ret (some h2, none), mem2, c2⟩ ∧
      readBytes mem2 128 (jmp3 640).length = jmp3 640 ∧
      (512 = 640 → mem2 = mem1) ∧
      restore mem2 h2 = mem1 ∧
      restore (restore mem2 h2) h1 = pristine :=
  applyFunc_twice (scriptYielding (.of (.ptrFuncPatch (some patchTestHandler)))).interp
    (scriptYielding (.of (.ptrFuncPatch (some patchRecoveryHandler)))).interp jmp3
    "goroutine 1 [running]" pristine "patch/patch_http.go" "patch.PatchTestHandler()"
    exampleSymbols patchTestHandler patchRecoveryHandler httpSvc
    ⟨"Index", .func handlerFunc 128⟩ handlerFunc 128 512 640
    (by decide) (by decide) rfl rfl (by decide) (by decide) rfl rfl rfl

end Hotfix
